import Mathlib

/-!
Shallow embedding of `src/financials.py` (class `xirr_second_derivative` and the
module-level helpers), together with theorems settling the specification claims.

Modelling conventions:
* a Python `datetime.date` is modelled by its day number, an integer, so that
  `(t - t0).days` becomes integer subtraction;
* Python floats are modelled by real numbers in the valuation and derivative
  functions (whose formulas use real powers) and by exact rationals in the
  solver driver and the turnover helper (whose own arithmetic is only sign
  tests and comparisons, so the embedding stays executable);
* Python runtime errors (`IndexError` from `chron_order[0]`, `ZeroDivisionError`
  from float division by `0.0` or from `0.0 ** negative`) are modelled with
  `Except PyErr`;
* `scipy.optimize.newton` is external library code, not part of this
  repository; the driver is therefore parameterised by an `attempt` oracle
  giving the outcome of one root-finding attempt from a given initial guess.
-/

/-- A cash-flow entry, the Python tuple `(date, amount)`: `.1` is the date's
day number, `.2` the float amount. -/
abbrev CashFlow : Type := ℤ × ℝ

namespace Financials

/-- Python runtime errors that the embedded numeric functions can raise. -/
inductive PyErr where
  | indexError
  | zeroDivisionError
deriving DecidableEq

/-- Python `sorted(cashflows, key=lambda x: x[0])` (Timsort is stable, and so
is `mergeSort`). -/
def chronOrder (cashflows : List CashFlow) : List CashFlow :=
  cashflows.mergeSort (fun a b => decide (a.1 ≤ b.1))

/-- The discounted terms of `xnpv`, summed left to right:
`t[1] / (1 + rate) ** ((t[0] - t0).days / 365.0)` for each entry `t`.
Float division by a zero denominator raises `ZeroDivisionError` in Python,
modelled by the error case (the comprehension evaluates terms left to right,
so the first zero denominator wins). -/
noncomputable def npvTerms (rate : ℝ) (t0 : ℤ) : List CashFlow → Except PyErr ℝ
  | [] => Except.ok 0
  | t :: rest =>
    let denom : ℝ := (1 + rate) ^ (((t.1 - t0 : ℤ) : ℝ) / 365)
    if denom = 0 then Except.error PyErr.zeroDivisionError
    else
      match npvTerms rate t0 rest with
      | Except.error e => Except.error e
      | Except.ok s => Except.ok (t.2 / denom + s)

/-- Method `xnpv` of `xirr_second_derivative`: sort the series by date,
take `t0 = chron_order[0][0]` (an `IndexError` on the empty list), and sum the
discounted cash flows. -/
noncomputable def xnpv (rate : ℝ) (cashflows : List CashFlow) : Except PyErr ℝ :=
  match chronOrder cashflows with
  | [] => Except.error PyErr.indexError
  | t0c :: rest => npvTerms rate t0c.1 (t0c :: rest)

/-- The terms of `eir_derivative_func`, summed left to right: for each entry,
`n = -(d.days / 365.)` with `d = dates[i] - dates[0]`, and the term is
`cf * n * (rate + 1) ** (n - 1)`. Python raises `ZeroDivisionError` on
`0.0 ** negative`, modelled by the error case. -/
noncomputable def derivTerms (rate : ℝ) (t0 : ℤ) : List CashFlow → Except PyErr ℝ
  | [] => Except.ok 0
  | c :: rest =>
    let n : ℝ := -((c.1 - t0 : ℤ) : ℝ) / 365
    if rate + 1 = 0 ∧ n - 1 < 0 then Except.error PyErr.zeroDivisionError
    else
      match derivTerms rate t0 rest with
      | Except.error e => Except.error e
      | Except.ok s => Except.ok (c.2 * n * (rate + 1) ^ (n - 1) + s)

/-- Method `eir_derivative_func`: the time anchor `dates[0]` is the date of the
first element of the list AS PASSED (no sorting). On the empty list the loop
body never runs, so `dates[0]` is never evaluated and `sum([]) == 0` is
returned. -/
noncomputable def eir_derivative_func (rate : ℝ) (cash_flow : List CashFlow) :
    Except PyErr ℝ :=
  match cash_flow with
  | [] => Except.ok 0
  | c0 :: rest => derivTerms rate c0.1 (c0 :: rest)

/-- Minimum of a list of dates, `0` on the empty list (only used on non-empty
lists). -/
def listMinD : List ℤ → ℤ
  | [] => 0
  | x :: xs => xs.foldl min x

/-- The earliest date appearing in a series. -/
def earliestDate (cashflows : List CashFlow) : ℤ :=
  listMinD (cashflows.map (fun t => t.1))

/-- The specification's formula for `xnpv`: sum over ALL entries, in the order
given, of `a / (1 + rate) ** ((t - t0).days / 365.0)` with `t0` the earliest
date of the series. -/
noncomputable def xnpvSpec (rate : ℝ) (cashflows : List CashFlow) : ℝ :=
  (cashflows.map (fun t =>
    t.2 / (1 + rate) ^ (((t.1 - earliestDate cashflows : ℤ) : ℝ) / 365))).sum

/-- The specification's formula for `eir_derivative_func` with anchor `t0`:
sum of `a * n * (1 + rate) ** (n - 1)` with `n = -((t - t0).days / 365.0)`. -/
noncomputable def derivSpec (rate : ℝ) (t0 : ℤ) (cash_flow : List CashFlow) : ℝ :=
  (cash_flow.map (fun c =>
    c.2 * (-((c.1 - t0 : ℤ) : ℝ) / 365) *
      (rate + 1) ^ (-((c.1 - t0 : ℤ) : ℝ) / 365 - 1))).sum

/-- The Python values the `xirr` driver can produce: a float root, a complex
root, the `np.nan` failure sentinel, or the implicit `None` of a Python
function that falls off its end. -/
inductive PyVal where
  | real (r : ℚ)
  | complexVal (re im : ℚ)
  | nan
  | pynone
deriving DecidableEq

/-- Python bitwise `~` applied to a bool: `~True == -2` and `~False == -1`,
both of which are truthy. -/
def tildeBool (b : Bool) : ℤ := if b then -2 else -1

/-- Python `isinstance(v, complex)`. -/
def isinstanceComplex : PyVal → Bool
  | PyVal.complexVal _ _ => true
  | _ => false

/-- `np.sign` of a float amount. -/
def qsign (x : ℚ) : ℤ := if 0 < x then 1 else if x < 0 then -1 else 0

/-- The constructor's `self.guess_list = [x for x in np.arange(0.1, 1, 0.1) for
x in (x, -x)]`: the inner comprehension variable shadows the outer one, giving
the interleaved list `0.1, -0.1, 0.2, -0.2, ..., 0.9, -0.9`, 18 guesses.
The values produced by `np.arange` are binary floats a few ulps away from
these decimals; they are modelled by the exact rationals, which leaves the
driver's control flow unchanged. -/
def guess_list : List ℚ :=
  [1/10, -1/10, 2/10, -2/10, 3/10, -3/10, 4/10, -4/10, 5/10, -5/10,
   6/10, -6/10, 7/10, -7/10, 8/10, -8/10, 9/10, -9/10]

/-- Outcome of one `optimize.newton` attempt from a given initial guess:
`none` means the attempt raised (swallowed by the bare `except: pass`),
`some v` means it returned the value `v`. -/
abbrev Attempt : Type := ℚ → Option PyVal

/-- The guess loop of `xirr`. The accumulator `o` starts empty; at the top of
each iteration, if `len(o) == 1` the function returns
`o[0] if ~isinstance(o[0], complex) else np.nan` (note the Python bitwise `~`
on a bool, which is always truthy); otherwise the attempt for the current
guess either appends its result to `o` or is discarded. When the guesses are
exhausted the Python function falls off its end and returns `None`. -/
def xirrLoop (attempt : Attempt) : List ℚ → List PyVal → PyVal
  | [], _ => PyVal.pynone
  | i :: rest, o =>
    match o with
    | [v] => if tildeBool (isinstanceComplex v) ≠ 0 then v else PyVal.nan
    | _ =>
      match attempt i with
      | some v => xirrLoop attempt rest (o ++ [v])
      | none => xirrLoop attempt rest o

/-- Method `xirr`: the two precondition checks (`len(cashflows) < 2`, and
fewer than two distinct non-zero signs among the amounts, via
`dict.fromkeys`), then the guess loop. Amounts are modelled as exact
rationals; the root-finder is the `attempt` oracle. The outer
`try ... except: return np.nan` is dead in the model: nothing in the loop
outside the inner `try` can raise. -/
def xirr (attempt : Attempt) (cashflows : List (ℤ × ℚ)) : PyVal :=
  if cashflows.length < 2 then PyVal.nan
  else
    let sign_list := cashflows.map (fun x => qsign x.2)
    let unique_sign_non_zero := (sign_list.filter (fun s => decide (s ≠ 0))).dedup
    if unique_sign_non_zero.length < 2 then PyVal.nan
    else xirrLoop attempt guess_list []

/-- Python `min` over a two-element list whose entries are each either a float
or `np.inf`; `none` stands for `np.inf`. -/
def minInf : Option ℚ → Option ℚ → Option ℚ
  | some a, some b => some (min a b)
  | some a, none => some a
  | none, some b => some b
  | none, none => none

/-- Module-level `get_turnover_standard`, on the two aggregated cash-flow
totals (the pandas column sums are abstracted into the two scalar arguments,
as in the spec): `min` of the positive totals (non-positive ones replaced by
`np.inf`) over the portfolio value, `0` as numerator when neither total is
positive, and `np.nan` — modelled by `none` — when the portfolio value is not
positive. The `minInf _ none = none` case doubles for Python's unreachable
`inf / portfolio_value`. -/
def get_turnover_standard (new_add_cash_flow new_exit_cash_flow portfolio_value : ℚ) :
    Option ℚ :=
  if 0 < portfolio_value then
    (if 0 < max new_add_cash_flow new_exit_cash_flow then
      minInf (if 0 < new_add_cash_flow then some new_add_cash_flow else none)
        (if 0 < new_exit_cash_flow then some new_exit_cash_flow else none)
    else some 0).map (fun m => m / portfolio_value)
  else none

end Financials

/-! ### Helper lemmas -/

namespace Financials

lemma foldl_min_le_init (xs : List ℤ) (a : ℤ) : xs.foldl min a ≤ a := by
  induction xs generalizing a with
  | nil => simp
  | cons x xs ih =>
    simp only [List.foldl_cons]
    exact le_trans (ih (min a x)) (min_le_left a x)

lemma foldl_min_le_mem (xs : List ℤ) (a : ℤ) : ∀ x ∈ xs, xs.foldl min a ≤ x := by
  induction xs generalizing a with
  | nil => simp
  | cons y ys ih =>
    intro x hx
    rcases List.mem_cons.mp hx with h | h
    · subst h
      exact le_trans (foldl_min_le_init ys (min a x)) (min_le_right a x)
    · exact ih (min a y) x h

lemma foldl_min_mem (xs : List ℤ) (a : ℤ) :
    xs.foldl min a = a ∨ xs.foldl min a ∈ xs := by
  induction xs generalizing a with
  | nil => simp
  | cons y ys ih =>
    simp only [List.foldl_cons]
    rcases ih (min a y) with h | h
    · rcases min_cases a y with ⟨hm, _⟩ | ⟨hm, _⟩
      · left; rw [h, hm]
      · right; rw [h, hm]; exact List.mem_cons_self y ys
    · right; exact List.mem_cons_of_mem y h

lemma foldl_min_of_le (xs : List ℤ) (a : ℤ) (h : ∀ x ∈ xs, a ≤ x) :
    xs.foldl min a = a := by
  induction xs generalizing a with
  | nil => simp
  | cons y ys ih =>
    simp only [List.foldl_cons]
    rw [min_eq_left (h y (List.mem_cons_self y ys))]
    exact ih a (fun x hx => h x (List.mem_cons_of_mem y hx))

lemma listMinD_le (l : List ℤ) : ∀ x ∈ l, listMinD l ≤ x := by
  cases l with
  | nil => simp
  | cons a xs =>
    intro x hx
    rcases List.mem_cons.mp hx with h | h
    · subst h; exact foldl_min_le_init xs x
    · exact foldl_min_le_mem xs a x h

lemma listMinD_mem (l : List ℤ) (h : l ≠ []) : listMinD l ∈ l := by
  cases l with
  | nil => exact absurd rfl h
  | cons a xs =>
    rcases foldl_min_mem xs a with h' | h'
    · rw [listMinD, h']; exact List.mem_cons_self a xs
    · exact List.mem_cons_of_mem a h'

lemma listMinD_perm {l l' : List ℤ} (hp : l.Perm l') (h : l ≠ []) :
    listMinD l = listMinD l' := by
  have h' : l' ≠ [] := fun he => h (List.Perm.eq_nil (he ▸ hp))
  have m1 : listMinD l ∈ l' := hp.mem_iff.mp (listMinD_mem l h)
  have m2 : listMinD l' ∈ l := hp.mem_iff.mpr (listMinD_mem l' h')
  exact le_antisymm (listMinD_le l _ m2) (listMinD_le l' _ m1)

lemma chronOrder_perm (cfs : List CashFlow) : (chronOrder cfs).Perm cfs :=
  List.mergeSort_perm cfs _

lemma chronOrder_pairwise (cfs : List CashFlow) :
    List.Pairwise (fun a b : CashFlow => a.1 ≤ b.1) (chronOrder cfs) := by
  have h := @List.sorted_mergeSort CashFlow
    (fun a b : CashFlow => decide (a.1 ≤ b.1))
    (fun a b c hab hbc => by
      simp only [decide_eq_true_eq] at *
      exact le_trans hab hbc)
    (fun a b => by
      simp only [Bool.or_eq_true, decide_eq_true_eq]
      exact le_total a.1 b.1)
    cfs
  refine h.imp ?_
  intro a b hab
  simpa using hab

lemma chronOrder_head_earliest (cfs : List CashFlow) (c : CashFlow)
    (rest : List CashFlow) (h : chronOrder cfs = c :: rest) :
    earliestDate cfs = c.1 := by
  have hperm : (List.map (fun t : CashFlow => t.1) cfs).Perm
      (List.map (fun t : CashFlow => t.1) (c :: rest)) :=
    List.Perm.map _ ((chronOrder_perm cfs).symm.trans (h ▸ List.Perm.refl _))
  have hne : List.map (fun t : CashFlow => t.1) cfs ≠ [] := by
    intro he
    have : cfs = [] := by simpa using congrArg List.length he
    rw [this] at h
    simp [chronOrder] at h
  have hpw := chronOrder_pairwise cfs
  rw [h, List.pairwise_cons] at hpw
  have hle : ∀ x ∈ List.map (fun t : CashFlow => t.1) rest, c.1 ≤ x := by
    intro x hx
    rcases List.mem_map.mp hx with ⟨t, ht, rfl⟩
    exact hpw.1 t ht
  calc earliestDate cfs
      = listMinD (List.map (fun t : CashFlow => t.1) (c :: rest)) :=
        listMinD_perm hperm hne
    _ = c.1 := by
        simp only [List.map_cons, listMinD]
        exact foldl_min_of_le _ _ hle

lemma npvTerms_ok (rate : ℝ) (t0 : ℤ) (l : List CashFlow)
    (h : ∀ t ∈ l, (1 + rate) ^ (((t.1 - t0 : ℤ) : ℝ) / 365) ≠ 0) :
    npvTerms rate t0 l =
      Except.ok ((l.map (fun t =>
        t.2 / (1 + rate) ^ (((t.1 - t0 : ℤ) : ℝ) / 365))).sum) := by
  induction l with
  | nil => simp [npvTerms]
  | cons t rest ih =>
    have hd := h t (List.mem_cons_self _ _)
    rw [npvTerms, if_neg hd, ih (fun x hx => h x (List.mem_cons_of_mem _ hx))]
    simp

lemma npvTerms_zeroDiv (rate : ℝ) (t0 : ℤ) (l : List CashFlow)
    (h : ∃ t ∈ l, (1 + rate) ^ (((t.1 - t0 : ℤ) : ℝ) / 365) = 0) :
    npvTerms rate t0 l = Except.error PyErr.zeroDivisionError := by
  induction l with
  | nil => simp at h
  | cons t rest ih =>
    by_cases hd : (1 + rate) ^ (((t.1 - t0 : ℤ) : ℝ) / 365) = 0
    · rw [npvTerms, if_pos hd]
    · rw [npvTerms, if_neg hd]
      have hrest : ∃ x ∈ rest, (1 + rate) ^ (((x.1 - t0 : ℤ) : ℝ) / 365) = 0 := by
        rcases h with ⟨x, hx, hx0⟩
        rcases List.mem_cons.mp hx with h' | h'
        · exact absurd (h' ▸ hx0) hd
        · exact ⟨x, h', hx0⟩
      rw [ih hrest]

lemma derivTerms_ok (rate : ℝ) (t0 : ℤ) (l : List CashFlow)
    (h : rate + 1 ≠ 0) :
    derivTerms rate t0 l =
      Except.ok ((l.map (fun c =>
        c.2 * (-((c.1 - t0 : ℤ) : ℝ) / 365) *
          (rate + 1) ^ (-((c.1 - t0 : ℤ) : ℝ) / 365 - 1))).sum) := by
  induction l with
  | nil => simp [derivTerms]
  | cons c rest ih =>
    rw [derivTerms, if_neg (fun hc => h hc.1), ih]
    simp

end Financials

namespace Financials

lemma xnpv_ok_spec (rate : ℝ) (cfs : List CashFlow) (h1 : -1 < rate)
    (h2 : cfs ≠ []) : xnpv rate cfs = Except.ok (xnpvSpec rate cfs) := by
  have hpos : (0 : ℝ) < 1 + rate := by linarith
  cases hc : chronOrder cfs with
  | nil =>
    exact absurd (List.Perm.eq_nil (hc ▸ chronOrder_perm cfs).symm) h2
  | cons c rest =>
    rw [xnpv, hc]
    change npvTerms rate c.1 (c :: rest) = _
    rw [npvTerms_ok rate c.1 (c :: rest)
      (fun t _ => ne_of_gt (Real.rpow_pos_of_pos hpos _))]
    have he : earliestDate cfs = c.1 := chronOrder_head_earliest cfs c rest hc
    rw [xnpvSpec, he]
    have hp : (c :: rest).Perm cfs := hc ▸ chronOrder_perm cfs
    exact congrArg Except.ok (List.Perm.sum_eq (List.Perm.map _ hp))

lemma xnpvSpec_single (rate : ℝ) (t : CashFlow) : xnpvSpec rate [t] = t.2 := by
  simp [xnpvSpec, earliestDate, listMinD]

lemma xnpvSpec_perm (rate : ℝ) {cfs cfs' : List CashFlow}
    (hp : cfs.Perm cfs') : xnpvSpec rate cfs = xnpvSpec rate cfs' := by
  by_cases h : cfs = []
  · subst h
    rw [List.Perm.eq_nil hp.symm]
  · have hmap : (List.map (fun t : CashFlow => t.1) cfs).Perm
        (List.map (fun t : CashFlow => t.1) cfs') := hp.map _
    have hne : List.map (fun t : CashFlow => t.1) cfs ≠ [] := by
      intro hm
      exact h (by simpa using congrArg List.length hm)
    have he : earliestDate cfs = earliestDate cfs' := listMinD_perm hmap hne
    rw [xnpvSpec, xnpvSpec, he]
    exact List.Perm.sum_eq (hp.map _)

lemma xnpv_not_zeroDiv (rate : ℝ) (h1 : -1 < rate) (cfs : List CashFlow) :
    xnpv rate cfs ≠ Except.error PyErr.zeroDivisionError := by
  have hpos : (0 : ℝ) < 1 + rate := by linarith
  cases hc : chronOrder cfs with
  | nil => rw [xnpv, hc]; intro h; exact PyErr.noConfusion (Except.error.inj h)
  | cons c rest =>
    rw [xnpv, hc]
    change npvTerms rate c.1 (c :: rest) ≠ _
    rw [npvTerms_ok rate c.1 (c :: rest)
      (fun t _ => ne_of_gt (Real.rpow_pos_of_pos hpos _))]
    intro h
    exact Except.noConfusion h

end Financials

namespace Financials

lemma xnpv_neg_one_zeroDiv (cfs : List CashFlow)
    (h : ∃ c ∈ cfs, earliestDate cfs < c.1) :
    xnpv (-1) cfs = Except.error PyErr.zeroDivisionError := by
  rcases h with ⟨c, hc, hlt⟩
  have h2 : cfs ≠ [] := by rintro rfl; simp at hc
  cases hco : chronOrder cfs with
  | nil =>
    exact absurd (List.Perm.eq_nil (hco ▸ chronOrder_perm cfs).symm) h2
  | cons c0 rest =>
    rw [xnpv, hco]
    change npvTerms (-1) c0.1 (c0 :: rest) = _
    apply npvTerms_zeroDiv
    have he : earliestDate cfs = c0.1 := chronOrder_head_earliest cfs c0 rest hco
    refine ⟨c, ?_, ?_⟩
    · exact ((hco ▸ chronOrder_perm cfs).mem_iff).mpr hc
    · have hepos : (0 : ℝ) < ((c.1 - c0.1 : ℤ) : ℝ) / 365 := by
        apply div_pos _ (by norm_num)
        exact_mod_cast sub_pos.mpr (he ▸ hlt)
      have hbase : (1 + (-1) : ℝ) = 0 := by norm_num
      rw [hbase]
      exact Real.zero_rpow (ne_of_gt hepos)

lemma dedup_all_eq_length {l : List ℤ} {a : ℤ} (h : ∀ x ∈ l, x = a) :
    l.dedup.length ≤ 1 := by
  induction l with
  | nil => simp
  | cons x xs ih =>
    have hx : x = a := h x (List.mem_cons_self _ _)
    have hxs : ∀ y ∈ xs, y = a := fun y hy => h y (List.mem_cons_of_mem _ hy)
    cases xs with
    | nil => simp
    | cons z zs =>
      have hz : z = a := hxs z (List.mem_cons_self _ _)
      have hmem : x ∈ z :: zs := by
        rw [hx, ← hz]
        exact List.mem_cons_self _ _
      rw [List.dedup_cons_of_mem hmem]
      exact ih hxs

lemma same_sign_filter_eq (cfs : List (ℤ × ℚ)) (a : ℤ)
    (hq : ∀ c ∈ cfs, qsign c.2 ≠ 0 → qsign c.2 = a) :
    ∀ x ∈ (cfs.map (fun c => qsign c.2)).filter (fun s => decide (s ≠ 0)), x = a := by
  intro x hx
  rcases List.mem_filter.mp hx with ⟨hmem, hne⟩
  rcases List.mem_map.mp hmem with ⟨c, hc, rfl⟩
  exact hq c hc (by simpa using hne)

end Financials

namespace Financials

lemma qsign_of_nonneg {q : ℚ} (h : 0 ≤ q) (hne : qsign q ≠ 0) : qsign q = 1 := by
  unfold qsign at *
  by_cases h1 : 0 < q
  · simp [h1]
  · have h2 : ¬ q < 0 := not_lt.mpr h
    simp [h1, h2] at hne

lemma qsign_of_nonpos {q : ℚ} (h : q ≤ 0) (hne : qsign q ≠ 0) : qsign q = -1 := by
  unfold qsign at *
  by_cases h1 : 0 < q
  · exact absurd (lt_of_lt_of_le h1 h) (lt_irrefl 0)
  · by_cases h2 : q < 0
    · simp [h1, h2]
    · simp [h1, h2] at hne

end Financials

/-! ### Claim theorems -/

namespace Financials

/-- C4: `xirr` returns the NaN failure sentinel immediately, independently of
the root-finder (`∀ attempt`), for every series with fewer than 2 entries and
for every series whose non-zero amounts all share one sign (amounts exactly 0
being ignored, so an all-zero series also fails). -/
theorem xirr_precondition_nan (cfs : List (ℤ × ℚ))
    (h : cfs.length < 2 ∨ (∀ c ∈ cfs, 0 ≤ c.2) ∨ (∀ c ∈ cfs, c.2 ≤ 0)) :
    ∀ attempt : Attempt, xirr attempt cfs = PyVal.nan := by
  intro attempt
  by_cases hl : cfs.length < 2
  · simp only [xirr]
    rw [if_pos hl]
  · have hsig :
        ((cfs.map (fun c => qsign c.2)).filter (fun s => decide (s ≠ 0))).dedup.length < 2 := by
      rcases h with h | h | h
      · exact absurd h hl
      · have hall := same_sign_filter_eq cfs 1
          (fun c hc hne => qsign_of_nonneg (h c hc) hne)
        exact lt_of_le_of_lt (dedup_all_eq_length hall) one_lt_two
      · have hall := same_sign_filter_eq cfs (-1)
          (fun c hc hne => qsign_of_nonpos (h c hc) hne)
        exact lt_of_le_of_lt (dedup_all_eq_length hall) one_lt_two
    simp only [xirr]
    rw [if_neg hl, if_pos hsig]

/-- C4 witness: a two-entry all-positive series fails the sign-diversity check
and yields the sentinel without any root-finding attempt. -/
theorem xirr_precondition_nan_witness :
    xirr (fun _ => Option.none) [(0, 1), (1, 2)] = PyVal.nan :=
  xirr_precondition_nan [(0, 1), (1, 2)]
    (Or.inr (Or.inl (by
      intro c hc
      simp only [List.mem_cons, List.mem_singleton] at hc
      rcases hc with rfl | rfl | hc
      · norm_num
      · norm_num
      · simp at hc)))
    (fun _ => Option.none)

end Financials

namespace Financials

/-- C1 (code bug): a series that passes both precondition checks, with a
root-finder that converges at the first guess to the complex value
`0.1 + 0.2j`. The claim (and the code's own `else np.nan` branch) says the
NaN sentinel is returned, but `~isinstance(o[0], complex)` is the Python
bitwise `~` on a bool, which is `-2` or `-1` and hence always truthy, so the
complex root itself is returned. -/
theorem xirr_returns_complex_root :
    xirr (fun _ => some (PyVal.complexVal (1/10) (1/5))) [(0, -1000), (365, 1100)] =
      PyVal.complexVal (1/10) (1/5) := rfl

/-- C2 (code bug): a series that passes both precondition checks, with a
root-finder whose every attempt raises. After the 18 guesses are exhausted the
Python function falls off its end and returns `None`, not the claimed
`np.nan` sentinel. -/
theorem xirr_all_guesses_fail_returns_none :
    xirr (fun _ => Option.none) [(0, -1000), (365, 1100)] = PyVal.pynone := rfl

/-- C3 (code bug): the driver returns the first successful real root only when
the success happens at one of the first 17 guesses (first conjunct: success at
the third guess, `0.2`, is returned). When the FIRST success occurs at the
18th and last guess, `-0.9`, the `len(o) == 1` check — which runs only at the
top of the NEXT iteration — never fires, the loop ends and the function
returns `None` instead of the root (second conjunct), contradicting the claim
for the last schedule position. -/
theorem xirr_last_guess_success_returns_none :
    (xirr (fun g => if g = 2/10 then some (PyVal.real (1/20)) else Option.none)
        [(0, -1000), (365, 1100)] = PyVal.real (1/20)) ∧
    (xirr (fun g => if g = -(9/10) then some (PyVal.real (1/20)) else Option.none)
        [(0, -1000), (365, 1100)] = PyVal.pynone) := by
  constructor
  · norm_num [xirr, xirrLoop, guess_list, qsign, tildeBool, isinstanceComplex]
  · norm_num [xirr, xirrLoop, guess_list, qsign, tildeBool, isinstanceComplex]

/-- C5 (code bug): on a documented-shape input (three dated amounts with both
signs present) whose every root-finding attempt fails, `xirr` does return a
value without raising, but that value is Python `None` — neither a rate nor
the NaN failure sentinel claimed by the contract. -/
theorem xirr_exhaustion_returns_none :
    xirr (fun _ => Option.none) [(0, 5), (180, -3), (365, 1)] = PyVal.pynone := rfl

/-- C6: for every rate greater than `-1` and non-empty series, `xnpv` returns
(without error) the sum over all entries `(t, a)` of
`a / (1 + rate) ^ ((t - t0).days / 365)` with `t0` the earliest date of the
series; consequently a single-entry series returns its amount unchanged. -/
theorem xnpv_eq_spec (rate : ℝ) (cfs : List CashFlow) (h1 : -1 < rate)
    (h2 : cfs ≠ []) :
    xnpv rate cfs = Except.ok (xnpvSpec rate cfs) ∧
    ∀ t : CashFlow, xnpv rate [t] = Except.ok t.2 := by
  refine ⟨xnpv_ok_spec rate cfs h1 h2, fun t => ?_⟩
  rw [xnpv_ok_spec rate [t] h1 (by simp), xnpvSpec_single]

/-- C6 witness: rate `0` and the single-entry series `[(day 0, 5)]`. -/
theorem xnpv_eq_spec_witness :
    xnpv 0 [((0 : ℤ), (5 : ℝ))] = Except.ok (xnpvSpec 0 [((0 : ℤ), (5 : ℝ))]) ∧
    ∀ t : CashFlow, xnpv 0 [t] = Except.ok t.2 :=
  xnpv_eq_spec 0 [((0 : ℤ), (5 : ℝ))] (by norm_num) (by simp)

/-- C7: for every rate greater than `-1` and non-empty list,
`eir_derivative_func` returns (without error) the sum, in the order passed, of
`a * n * (1 + rate) ^ (n - 1)` with `n = -((t - t0).days / 365)`, where `t0`
is the date of the FIRST element of the list as passed (no sorting). -/
theorem eir_derivative_func_eq_spec (rate : ℝ) (c0 : CashFlow)
    (rest : List CashFlow) (h1 : -1 < rate) :
    eir_derivative_func rate (c0 :: rest) =
      Except.ok (derivSpec rate c0.1 (c0 :: rest)) := by
  rw [eir_derivative_func]
  rw [derivTerms_ok rate c0.1 (c0 :: rest) (by linarith)]
  rfl

/-- C7 witness: rate `0` and the two-entry list `[(day 0, 5), (day 365, -3)]`,
anchored at the first element as passed. -/
theorem eir_derivative_func_eq_spec_witness :
    eir_derivative_func 0 [((0 : ℤ), (5 : ℝ)), ((365 : ℤ), (-3 : ℝ))] =
      Except.ok (derivSpec 0 0 [((0 : ℤ), (5 : ℝ)), ((365 : ℤ), (-3 : ℝ))]) :=
  eir_derivative_func_eq_spec 0 ((0 : ℤ), (5 : ℝ)) [((365 : ℤ), (-3 : ℝ))] (by norm_num)

/-- C8: for every rate greater than `-1`, permuting the entries of a series
does not change the value of `xnpv` — the sort is internal. -/
theorem xnpv_perm_invariant (rate : ℝ) (cfs cfs' : List CashFlow)
    (h1 : -1 < rate) (hp : cfs.Perm cfs') :
    xnpv rate cfs = xnpv rate cfs' := by
  by_cases h : cfs = []
  · subst h
    rw [List.Perm.eq_nil hp.symm]
  · have h' : cfs' ≠ [] := fun he => h (List.Perm.eq_nil (he ▸ hp))
    rw [xnpv_ok_spec rate cfs h1 h, xnpv_ok_spec rate cfs' h1 h',
      xnpvSpec_perm rate hp]

/-- C8 witness: rate `0` and a two-entry series against its swap. -/
theorem xnpv_perm_invariant_witness :
    xnpv 0 [((1 : ℤ), (2 : ℝ)), ((0 : ℤ), (1 : ℝ))] =
      xnpv 0 [((0 : ℤ), (1 : ℝ)), ((1 : ℤ), (2 : ℝ))] :=
  xnpv_perm_invariant 0 _ _ (by norm_num)
    (List.Perm.swap ((0 : ℤ), (1 : ℝ)) ((1 : ℤ), (2 : ℝ)) [])

/-- C10: at rate `-1`, `xnpv` hits a float division by zero (the discount
factor `0.0 ** years` is `0.0` for the strictly positive `years` of any entry
dated after the earliest one), modelled as the guarded `zeroDivisionError`
case; and for every rate strictly greater than `-1` no division by zero ever
occurs, on any series. -/
theorem xnpv_neg_one_division_by_zero (cfs : List CashFlow)
    (h : ∃ c ∈ cfs, earliestDate cfs < c.1) :
    xnpv (-1) cfs = Except.error PyErr.zeroDivisionError ∧
    ∀ rate : ℝ, -1 < rate → ∀ cfs' : List CashFlow,
      xnpv rate cfs' ≠ Except.error PyErr.zeroDivisionError :=
  ⟨xnpv_neg_one_zeroDiv cfs h, fun rate h1 cfs' => xnpv_not_zeroDiv rate h1 cfs'⟩

/-- C10 witness: the series `[(day 0, 1), (day 365, 1)]`, whose second entry
is dated strictly after the earliest date. -/
theorem xnpv_neg_one_division_by_zero_witness :
    xnpv (-1) [((0 : ℤ), (1 : ℝ)), ((365 : ℤ), (1 : ℝ))] =
        Except.error PyErr.zeroDivisionError ∧
    ∀ rate : ℝ, -1 < rate → ∀ cfs' : List CashFlow,
      xnpv rate cfs' ≠ Except.error PyErr.zeroDivisionError :=
  xnpv_neg_one_division_by_zero [((0 : ℤ), (1 : ℝ)), ((365 : ℤ), (1 : ℝ))]
    ⟨((365 : ℤ), (1 : ℝ)), List.mem_cons_of_mem _ (List.mem_cons_self _ _),
      by norm_num [earliestDate, listMinD]⟩

end Financials

namespace Financials

/-- C9: `get_turnover_standard` returns the minimum of the positive totals
divided by the portfolio value when the portfolio value is positive and at
least one total is positive (three cases, depending on which totals are
positive), returns zero when the portfolio value is positive but neither total
is, and returns the NaN sentinel (`none`) whenever the portfolio value is
non-positive. -/
theorem get_turnover_standard_spec (p s v : ℚ) :
    (0 < v → 0 < p → 0 < s →
      get_turnover_standard p s v = some (min p s / v)) ∧
    (0 < v → 0 < p → ¬ 0 < s →
      get_turnover_standard p s v = some (p / v)) ∧
    (0 < v → ¬ 0 < p → 0 < s →
      get_turnover_standard p s v = some (s / v)) ∧
    (0 < v → ¬ 0 < p → ¬ 0 < s →
      get_turnover_standard p s v = some 0) ∧
    (v ≤ 0 → get_turnover_standard p s v = none) := by
  refine ⟨fun hv hp hs => ?_, fun hv hp hs => ?_, fun hv hp hs => ?_,
    fun hv hp hs => ?_, fun hv => ?_⟩
  · have hmax : 0 < max p s := lt_max_iff.mpr (Or.inl hp)
    simp [get_turnover_standard, minInf, hv, hp, hs, hmax]
  · have hmax : 0 < max p s := lt_max_iff.mpr (Or.inl hp)
    simp [get_turnover_standard, minInf, hv, hp, hs, hmax]
  · have hmax : 0 < max p s := lt_max_iff.mpr (Or.inr hs)
    simp [get_turnover_standard, minInf, hv, hp, hs, hmax]
  · have hmax : ¬ 0 < max p s := by
      rw [lt_max_iff]
      rintro (h | h)
      · exact hp h
      · exact hs h
    simp [get_turnover_standard, minInf, hv, hp, hs, hmax]
  · simp [get_turnover_standard, not_lt.mpr hv]

/-- C9 witness: totals `2` and `3` with portfolio value `1`. -/
theorem get_turnover_standard_spec_witness :
    get_turnover_standard 2 3 1 = some (min 2 3 / 1) :=
  (get_turnover_standard_spec 2 3 1).1 (by norm_num) (by norm_num) (by norm_num)

end Financials
